import Mathlib

/-!
Verification of the jsonlinkcheck repository: a shallow embedding of the
URL-checking and record-cleaning pipeline (src/src/jsonlinkcheck/main.py,
with the legacy variant src/linkcheck.py embedded where it differs),
together with theorems settling the specified claims.

Conventions of the embedding:
* JSON values are the inductive type Json; a record (one JSON-Lines object)
  is an ordered association list of field name and value, mirroring a
  Python dict with unique keys.
* Network effects are an oracle: check_url takes a function from the
  attempt index to what that attempt observed (a response, a timeout, a
  transport error, or another exception); the record processor takes a
  function from the URL to the outcome tuple of a completed check_url call.
* Raised exceptions become distinguished constructors (CheckResult), and
  the mutation of the shared Statistics object and timeout set becomes an
  explicit event list folded into a Statistics value.
-/

namespace JsonLinkCheck

/-- JSON values as parsed from one JSON-Lines line. Objects do not occur
below the top level in the data this tool processes, so nested objects are
not modelled; the processor only ever inspects strings and lists. -/
inductive Json where
  | str (s : String)
  | arr (elems : List Json)
  | num (n : Int)
  | bool (b : Bool)
  | null

/-- A record: an ordered mapping from field names to JSON values, the
shallow embedding of one parsed JSON-Lines object (a Python dict). -/
abbrev Record := List (String × Json)

/-- Reading a dict entry: the value stored under the first matching
key, if any. -/
def lookupField : Record → String → Option Json
  | [], _ => none
  | (k, v) :: rest, f => if k = f then some v else lookupField rest f

/-- Embedding of deleting a dict entry: remove the pair with the given key. -/
def delField : Record → String → Record
  | [], _ => []
  | (k, v) :: rest, f => if k = f then delField rest f else (k, v) :: delField rest f

/-- Embedding of dict assignment for a key that is already present:
replace the stored value in place. -/
def setField : Record → String → Json → Record
  | [], _, _ => []
  | (k, v) :: rest, f, nv =>
    if k = f then (k, nv) :: setField rest f nv else (k, v) :: setField rest f nv

/-! Lemmas about record operations. -/

theorem lookupField_delField_ne (r : Record) (f g : String) (h : g ≠ f) :
    lookupField (delField r f) g = lookupField r g := by
  induction r with
  | nil => rfl
  | cons p rest ih =>
    obtain ⟨k, v⟩ := p
    have hfg : ¬ f = g := fun hh => h hh.symm
    by_cases hk : k = f
    · simp [delField, lookupField, hk, hfg, ih]
    · by_cases hg : k = g
      · simp [delField, lookupField, hk, hg, h]
      · simp [delField, lookupField, hk, hg, ih]

theorem lookupField_setField_ne (r : Record) (f g : String) (v : Json) (h : g ≠ f) :
    lookupField (setField r f v) g = lookupField r g := by
  induction r with
  | nil => rfl
  | cons p rest ih =>
    obtain ⟨k, w⟩ := p
    have hfg : ¬ f = g := fun hh => h hh.symm
    by_cases hk : k = f
    · simp [setField, lookupField, hk, hfg, ih]
    · by_cases hg : k = g
      · simp [setField, lookupField, hk, hg, h]
      · simp [setField, lookupField, hk, hg, ih]

/-!
URL syntax validation: embedding of urllib.parse.urlparse as far as the
program uses it (the scheme and netloc components), and of is_valid_url
from main.py lines 210 to 222 (identical in linkcheck.py lines 172 to 184).
-/

/-- Characters allowed in a URL scheme after the initial letter
(urllib scheme_chars: letters, digits, plus, minus, dot). -/
def isSchemeChar (c : Char) : Bool :=
  c.isAlphanum || c = '+' || c = '-' || c = '.'

/-- Split a character list at the first colon, returning the part before
and after it; none when no colon occurs (url.find of the colon). -/
def splitAtColon : List Char → Option (List Char × List Char)
  | [] => none
  | c :: cs =>
    if c = ':' then some ([], cs)
    else
      match splitAtColon cs with
      | some (pre, post) => some (c :: pre, post)
      | none => none

/-- A nonempty candidate scheme is valid when it starts with a letter and
continues with scheme characters (urlsplit only strips a scheme of this
shape; in particular a colon at position zero yields no scheme). -/
def validSchemeChars : List Char → Bool
  | [] => false
  | c :: cs => c.isAlpha && cs.all isSchemeChar

/-- The netloc of the remainder after the scheme: present only when the
remainder starts with two slashes, and extends to the next slash, question
mark or hash (urlsplit). -/
def netlocOf : List Char → List Char
  | '/' :: '/' :: rest => rest.takeWhile (fun c => !(c = '/' || c = '?' || c = '#'))
  | _ => []

/-- Embedding of urllib.parse.urlparse restricted to the two components the
program reads: the (lowercased) scheme and the netloc. -/
def urlparse (s : String) : String × String :=
  match splitAtColon s.data with
  | some (pre, post) =>
    if validSchemeChars pre then
      (String.mk (pre.map Char.toLower), String.mk (netlocOf post))
    else ("", String.mk (netlocOf s.data))
  | none => ("", String.mk (netlocOf s.data))

/-- is_valid_url from the source: urlparse the string and require both the
scheme and the netloc to be truthy, that is, nonempty (main.py lines
218 to 222). The parser never raises in this embedding, so the except
branch returning false does not arise. -/
def is_valid_url (s : String) : Bool :=
  !(urlparse s).1.isEmpty && !(urlparse s).2.isEmpty

/-!
The URL liveness checker: embedding of check_url from main.py lines 225
to 290 and of the legacy single-attempt check_url from linkcheck.py lines
187 to 249. One network attempt is modelled by what the attempt observed.
-/

/-- What one HTTP GET attempt observed: a response with its status and the
optional verbatim value of the Location header, a timeout
(asyncio.TimeoutError), a transport error (aiohttp.ClientError), or any
other exception. -/
inductive Attempt where
  | response (status : Nat) (location : Option String)
  | timeout
  | clientError
  | otherError
deriving DecidableEq

/-- The four-tuple check_url returns: is_valid, new_url, is_timeout and
status_code. -/
structure CheckOutcome where
  is_valid : Bool
  new_url : Option String
  is_timeout : Bool
  status_code : Option Nat
deriving DecidableEq

/-- How a check_url call ends: a returned outcome tuple, or one of the two
exceptions it raises (NetworkError after retries exhaust on transport
errors, ProcessingError on any unexpected exception). -/
inductive CheckResult where
  | ok (o : CheckOutcome)
  | networkError
  | processingError
deriving DecidableEq

/-- Classification of a received HTTP response, shared verbatim by both
variants (main.py lines 243 to 268, linkcheck.py lines 212 to 242):
status 200 returns the url itself; 301 or 302 returns the Location header
value when that value is truthy (present and nonempty) and otherwise the
url; 404 and every other status are invalid with the status recorded.
An empty-string Location is falsy in Python, hence treated like a missing
header. -/
def classify (url : String) (status : Nat) (location : Option String) : CheckOutcome :=
  if status = 200 then ⟨true, some url, false, some 200⟩
  else if status = 301 ∨ status = 302 then
    match location with
    | some l => if l.isEmpty then ⟨true, some url, false, some status⟩
                else ⟨true, some l, false, some status⟩
    | none => ⟨true, some url, false, some status⟩
  else if status = 404 then ⟨false, none, false, some 404⟩
  else ⟨false, none, false, some status⟩

/-- The observable behaviour of one check_url call: its final result, how
many attempts it performed, and the backoff sleeps (in seconds, in order)
between consecutive attempts. -/
structure CheckRun where
  result : CheckResult
  attempts : Nat
  sleeps : List Nat
deriving DecidableEq

/-- The retry loop of check_url (main.py lines 235 to 290), recursing on
remaining = retries - attempt, so the Python test attempt = retries - 1
becomes remaining = 1 and the loop guard attempt < retries becomes
0 < remaining. A response returns its classification at once; a timeout on
the last attempt returns the timed-out tuple; a transport error on the
last attempt raises NetworkError; any other exception raises
ProcessingError at once; otherwise the loop sleeps 2 ^ attempt seconds and
retries. A loop that never runs (retries = 0) falls through to the final
return of false, none, false, none. -/
def check_url_go (oracle : Nat → Attempt) (url : String) (attempt : Nat) :
    Nat → CheckRun
  | 0 => ⟨.ok ⟨false, none, false, none⟩, 0, []⟩
  | 1 =>
    match oracle attempt with
    | .response st loc => ⟨.ok (classify url st loc), 1, []⟩
    | .timeout => ⟨.ok ⟨false, none, true, none⟩, 1, []⟩
    | .clientError => ⟨.networkError, 1, []⟩
    | .otherError => ⟨.processingError, 1, []⟩
  | remaining + 2 =>
    match oracle attempt with
    | .response st loc => ⟨.ok (classify url st loc), 1, []⟩
    | .timeout =>
      let rest := check_url_go oracle url (attempt + 1) (remaining + 1)
      ⟨rest.result, rest.attempts + 1, 2 ^ attempt :: rest.sleeps⟩
    | .clientError =>
      let rest := check_url_go oracle url (attempt + 1) (remaining + 1)
      ⟨rest.result, rest.attempts + 1, 2 ^ attempt :: rest.sleeps⟩
    | .otherError => ⟨.processingError, 1, []⟩

/-- check_url of main.py: run the retry loop from attempt 0 with the given
number of retries (the callers in process_chunk leave retries at its
default MAX_RETRIES = 3). -/
def check_url (oracle : Nat → Attempt) (url : String) (retries : Nat) : CheckRun :=
  check_url_go oracle url 0 retries

/-- check_url of the legacy linkcheck.py (lines 187 to 249): a single
attempt with no retry loop; a timeout returns the timed-out tuple, and
every other exception, transport errors included, is caught by the broad
except handler at lines 247 to 249 and returned as the ordinary invalid
tuple false, none, false, none. -/
def linkcheck_check_url (att : Attempt) (url : String) : CheckOutcome :=
  match att with
  | .response st loc => classify url st loc
  | .timeout => ⟨false, none, true, none⟩
  | .clientError => ⟨false, none, false, none⟩
  | .otherError => ⟨false, none, false, none⟩

/-!
The record field processor: embedding of process_chunk from main.py lines
342 to 489. Network checks are an oracle from the URL to the outcome tuple
of its completed check_url call (per the data-model invariant, repeated
URLs are re-checked, but the pipeline claims fix one outcome per URL).
Mutations of the shared Statistics object and timeout set are emitted as
an ordered event list.
-/

/-- The per-run options that process_chunk reads: the configured field
list, the delete-timeouts and follow-redirects flags, the verbose flag,
and whether a chunk progress bar object was passed (the dispatcher,
process_chunk_in_thread, always passes verbose as False and passes a
progress bar exactly when the visual flag is on). -/
structure Config where
  fields : List String
  delete_timeouts : Bool
  follow_redirects : Bool
  verbose : Bool
  chunk_progress : Bool

/-- One call of Statistics.add_url_check, with its arguments. -/
structure UrlCheckCall where
  field : String
  url : String
  is_valid : Bool
  new_url : Option String
  is_timeout : Bool
  status_code : Option Nat
deriving DecidableEq

/-- One mutation of the shared state, in program order: an add_url_check
call, an insertion into the shared timeout-URL set, or an append of a
source and target pair to a field's redirects_map. -/
inductive Event where
  | urlCheck (c : UrlCheckCall)
  | timeoutUrl (url : String)
  | redirectPair (field : String) (src : String) (tgt : Option String)
deriving DecidableEq

/-- The Python value written back on a followed redirect: new_url, which is
a string in every reachable outcome but None in general. -/
def jsonOfOpt : Option String → Json
  | some u => Json.str u
  | none => Json.null

/-- The array branch of process_chunk (main.py lines 370 to 429): walk the
list, check each element that is a string passing syntactic validation,
and rebuild the kept elements. Elements that are not strings or fail
validation are dropped silently with no event. On a timeout the element is
appended back only when the verbose branch that logs the decision runs,
that is, when verbose is on, no progress bar was passed and
delete_timeouts is off (the append at line 408 sits inside the logging
block of lines 400 to 412). On a followed redirect the new URL is appended
and the pair recorded; an unfollowed redirect or a plain valid URL keeps
the element. -/
def processElems (env : String → CheckOutcome) (cfg : Config) (f : String) :
    List Json → List Json × List Event
  | [] => ([], [])
  | e :: rest =>
    let tail := processElems env cfg f rest
    match e with
    | Json.str url =>
      if is_valid_url url then
        let o := env url
        let call := Event.urlCheck ⟨f, url, o.is_valid, o.new_url, o.is_timeout, o.status_code⟩
        if o.is_timeout then
          let kept := cfg.verbose && !cfg.chunk_progress && !cfg.delete_timeouts
          ((if kept then [Json.str url] else []) ++ tail.1,
            call :: Event.timeoutUrl url :: tail.2)
        else if o.is_valid = false then (tail.1, call :: tail.2)
        else if o.new_url ≠ some url ∧ cfg.follow_redirects then
          (jsonOfOpt o.new_url :: tail.1,
            call :: Event.redirectPair f url o.new_url :: tail.2)
        else (Json.str url :: tail.1, call :: tail.2)
      else (tail.1, tail.2)
    | _ => (tail.1, tail.2)

/-- Processing of one configured field of one record (the body of the
loop over fields, main.py lines 365 to 485): skip when the field is
absent; rebuild or delete a list value depending on whether any elements
survive; check a syntactically valid string value and keep, delete or
rewrite the field according to the outcome and the flags; delete the field
for any other value, including syntactically invalid strings, with no
check performed and no event emitted. -/
def processField (env : String → CheckOutcome) (cfg : Config) (f : String)
    (item : Record) : Record × List Event :=
  match lookupField item f with
  | none => (item, [])
  | some (Json.arr elems) =>
    let res := processElems env cfg f elems
    if res.1.isEmpty then (delField item f, res.2)
    else (setField item f (Json.arr res.1), res.2)
  | some (Json.str s) =>
    if is_valid_url s then
      let o := env s
      let call := Event.urlCheck ⟨f, s, o.is_valid, o.new_url, o.is_timeout, o.status_code⟩
      if o.is_timeout then
        ((if cfg.delete_timeouts then delField item f else item),
          [call, Event.timeoutUrl s])
      else if o.is_valid = false then (delField item f, [call])
      else if o.new_url ≠ some s ∧ cfg.follow_redirects then
        (setField item f (jsonOfOpt o.new_url),
          [call, Event.redirectPair f s o.new_url])
      else (item, [call])
    else (delField item f, [])
  | some _ => (delField item f, [])

/-- Fold of processField over the configured field list, threading the
record being mutated and concatenating the emitted events in order. -/
def processFields (env : String → CheckOutcome) (cfg : Config) :
    List String → Record → Record × List Event
  | [], item => (item, [])
  | f :: fs, item =>
    let step := processField env cfg f item
    let rest := processFields env cfg fs step.1
    (rest.1, step.2 ++ rest.2)

/-- Processing of one record: item.copy() followed by the loop over the
configured fields. -/
def processItem (env : String → CheckOutcome) (cfg : Config) (item : Record) :
    Record × List Event :=
  processFields env cfg cfg.fields item

/-- process_chunk: process the records of one chunk in order, producing
one output record per input record plus the emitted events. -/
def process_chunk (env : String → CheckOutcome) (cfg : Config) :
    List Record → List Record × List Event
  | [] => ([], [])
  | item :: rest =>
    let step := processItem env cfg item
    let tail := process_chunk env cfg rest
    (step.1 :: tail.1, step.2 ++ tail.2)

/-!
The chunk pipeline and the ordered merge: embedding of
read_jsonl_chunks_async (main.py lines 299 to 339) and of the dispatch and
merge in process_json_file (lines 594 to 655). An input line is modelled
as what the external JSON parser made of it: some record, or none for a
line whose parse failed and is skipped.
-/

/-- read_jsonl_chunks_async: accumulate parsed records, emitting a chunk
whenever the accumulator reaches chunk_size, and a final nonempty
remainder as the last chunk; lines that fail to parse are skipped. -/
def read_chunks (chunkSize : Nat) (acc : List Record) :
    List (Option Record) → List (List Record)
  | [] => if acc.isEmpty then [] else [acc]
  | none :: rest => read_chunks chunkSize acc rest
  | some obj :: rest =>
    let acc2 := acc ++ [obj]
    if chunkSize ≤ acc2.length then acc2 :: read_chunks chunkSize [] rest
    else read_chunks chunkSize acc2 rest

/-- Attach ascending indices starting at k to a list, the chunk numbering
assigned at read time. -/
def withIndex (k : Nat) : List (List Record) → List (Nat × List Record)
  | [] => []
  | c :: cs => (k, c) :: withIndex (k + 1) cs

/-- Look a chunk index up in a store of per-chunk artifacts (the temporary
files keyed by chunk number). -/
def storeLookup : List (Nat × List Record) → Nat → Option (List Record)
  | [], _ => none
  | (k, c) :: rest, i => if k = i then some c else storeLookup rest i

/-- The ordered merge (main.py lines 648 to 655): for each chunk index
from 0 up to chunk_num, in ascending order, append that index's artifact;
a missing artifact contributes nothing (the exists check on the chunk
file). -/
def mergeUpTo (store : List (Nat × List Record)) : Nat → List Record
  | 0 => []
  | n + 1 => mergeUpTo store n ++ (storeLookup store n).getD []

/-- The per-chunk artifacts a completed run has produced: for each chunk,
keyed by its index, the records process_chunk returned for it (the
contents of the temporary file process_chunk_in_thread wrote). Every task
writes only the file keyed by its own chunk index, so any execution order
of the tasks produces a permutation of this association list. -/
def chunkArtifacts (env : String → CheckOutcome) (cfg : Config)
    (chunkSize : Nat) (lines : List (Option Record)) : List (Nat × List Record) :=
  withIndex 0 ((read_chunks chunkSize [] lines).map
    (fun c => (process_chunk env cfg c).1))

/-- The cleaned records process_json_file writes: the ordered merge of all
per-chunk artifacts over the chunk indices assigned at read time. -/
def process_json_file (env : String → CheckOutcome) (cfg : Config)
    (chunkSize : Nat) (lines : List (Option Record)) : List Record :=
  mergeUpTo (chunkArtifacts env cfg chunkSize lines)
    (read_chunks chunkSize [] lines).length

/-!
The statistics aggregator: embedding of FieldStats, Statistics and
add_url_check (main.py lines 68 to 142, identical in linkcheck.py lines 33
to 104), and of the per-field summary lines of print_summary.
-/

/-- FieldStats: the per-field counters, the domain counts and the list of
redirect pairs. -/
structure FieldStats where
  total_urls : Nat
  valid_urls : Nat
  invalid_urls : Nat
  redirects : Nat
  not_found : Nat
  timeouts : Nat
  errors : Nat
  domains : List (String × Nat)
  redirects_map : List (String × Option String)
deriving DecidableEq

/-- The FieldStats a defaultdict creates on first access: all counters
zero, no domains, no redirect pairs. -/
def FieldStats.init : FieldStats := ⟨0, 0, 0, 0, 0, 0, 0, [], []⟩

/-- Statistics: the mapping from field name to FieldStats, in insertion
order (a defaultdict of FieldStats). -/
structure Statistics where
  field_stats : List (String × FieldStats)
deriving DecidableEq

/-- The empty Statistics a run starts with. -/
def Statistics.init : Statistics := ⟨[]⟩

/-- Lookup in an association list by its first matching key. -/
def statLookup : List (String × FieldStats) → String → Option FieldStats
  | [], _ => none
  | (k, v) :: rest, f => if k = f then some v else statLookup rest f

/-- Replace the first entry with the given key, or append a new entry when
the key is absent: the net effect of mutating a defaultdict entry in
place, entry creation on first access included. -/
def updFirst : List (String × FieldStats) → String → FieldStats →
    List (String × FieldStats)
  | [], f, fs => [(f, fs)]
  | (k, v) :: rest, f, fs =>
    if k = f then (f, fs) :: rest else (k, v) :: updFirst rest f fs

/-- Reading self.field_stats of a field: the stored FieldStats, or a fresh
one for a field not seen before. -/
def getFS (st : Statistics) (f : String) : FieldStats :=
  (statLookup st.field_stats f).getD FieldStats.init

/-- Writing a field's FieldStats back. -/
def setFS (st : Statistics) (f : String) (fs : FieldStats) : Statistics :=
  ⟨updFirst st.field_stats f fs⟩

/-- Increment a domain's count in the domain defaultdict, creating it at
one on first sight. -/
def bumpDomain : List (String × Nat) → String → List (String × Nat)
  | [], d => [(d, 1)]
  | (k, n) :: rest, d =>
    if k = d then (k, n + 1) :: rest else (k, n) :: bumpDomain rest d

/-- Statistics.add_url_check (main.py lines 109 to 142): increment the
field's total and its domain count, then exactly one outcome counter:
timeouts on a timeout; not_found on an invalid check with status 404 and
invalid_urls on any other invalid check; and valid_urls otherwise, with
redirects also incremented when new_url is truthy (present and nonempty)
and differs from the url. The errors counter is declared at line 85 but
never touched here or anywhere else. -/
def add_url_check (st : Statistics) (c : UrlCheckCall) : Statistics :=
  let fs0 := getFS st c.field
  let fs1 := { fs0 with
    total_urls := fs0.total_urls + 1,
    domains := bumpDomain fs0.domains (urlparse c.url).2 }
  let fs2 :=
    if c.is_timeout then { fs1 with timeouts := fs1.timeouts + 1 }
    else if c.is_valid = false then
      (if c.status_code = some 404 then { fs1 with not_found := fs1.not_found + 1 }
       else { fs1 with invalid_urls := fs1.invalid_urls + 1 })
    else if (match c.new_url with
             | some u => !u.isEmpty && u ≠ c.url
             | none => false) then
      { fs1 with redirects := fs1.redirects + 1, valid_urls := fs1.valid_urls + 1 }
    else { fs1 with valid_urls := fs1.valid_urls + 1 }
  setFS st c.field fs2

/-- Apply one emitted event to the Statistics: an add_url_check call
mutates the counters; a redirects_map append (main.py lines 425 and 477)
extends only that list; an insertion into the timeout-URL set touches the
separate shared set, not the Statistics. -/
def applyEvent (st : Statistics) : Event → Statistics
  | .urlCheck c => add_url_check st c
  | .timeoutUrl _ => st
  | .redirectPair f src tgt =>
    let fs := getFS st f
    setFS st f { fs with redirects_map := fs.redirects_map ++ [(src, tgt)] }

/-- The Statistics reached after a sequence of events, starting from the
fresh Statistics a run constructs. -/
def runStats (evs : List Event) : Statistics :=
  evs.foldl applyEvent Statistics.init

/-- The grand total of checked URLs: the sum over all fields of
total_urls, as print_summary computes it (main.py line 182). -/
def totalSum (st : Statistics) : Nat :=
  (st.field_stats.map (fun p => p.2.total_urls)).sum

/-- The number of add_url_check calls in an event list. -/
def countCalls : List Event → Nat
  | [] => 0
  | .urlCheck _ :: rest => 1 + countCalls rest
  | _ :: rest => countCalls rest

/-- The conditional errors line of the per-field summary (main.py lines
168 to 169): printed exactly when the errors counter is nonzero. -/
def errorsLines (fs : FieldStats) : List String :=
  if fs.errors > 0 then ["  Fehler: " ++ toString fs.errors] else []

/-!
URL occurrences examined: the syntactic count of URLs the processor
submits to the network check, one per string-valued configured field
passing syntactic validation plus one per such element of a list value.
-/

/-- URL occurrences examined among the elements of a list value. -/
def examinedOfElems : List Json → Nat
  | [] => 0
  | Json.str u :: rest => (if is_valid_url u then 1 else 0) + examinedOfElems rest
  | _ :: rest => examinedOfElems rest

/-- URL occurrences examined in one configured field of a record. -/
def examinedOfField (item : Record) (f : String) : Nat :=
  match lookupField item f with
  | some (Json.arr elems) => examinedOfElems elems
  | some (Json.str s) => if is_valid_url s then 1 else 0
  | _ => 0

/-- URL occurrences examined in a record across a list of fields. -/
def examinedOfFields (item : Record) : List String → Nat
  | [] => 0
  | f :: fs => examinedOfField item f + examinedOfFields item fs

/-- URL occurrences examined across a chunk. -/
def examinedOfChunk (cfg : Config) (chunk : List Record) : Nat :=
  (chunk.map (fun item => examinedOfFields item cfg.fields)).sum

theorem check_url_go_timeout : ∀ (rem : Nat) (oracle : Nat → Attempt) (url : String)
    (attempt : Nat), 1 ≤ rem → (∀ i, i < rem → oracle (attempt + i) = Attempt.timeout) →
    check_url_go oracle url attempt rem =
      ⟨.ok ⟨false, none, true, none⟩, rem,
        (List.range' attempt (rem - 1)).map (fun i => 2 ^ i)⟩
  | 0, _, _, _, h, _ => absurd h (by omega)
  | 1, oracle, url, attempt, _, hall => by
    have h0 : oracle attempt = Attempt.timeout := by simpa using hall 0 (by omega)
    simp [check_url_go, h0]
  | n + 2, oracle, url, attempt, _, hall => by
    have h0 : oracle attempt = Attempt.timeout := by simpa using hall 0 (by omega)
    have ih := check_url_go_timeout (n + 1) oracle url (attempt + 1) (by omega)
      (fun i hi => by
        have he : attempt + 1 + i = attempt + (i + 1) := by omega
        rw [he]; exact hall (i + 1) (by omega))
    simp [check_url_go, h0, ih, List.range']

theorem check_url_go_clientError : ∀ (rem : Nat) (oracle : Nat → Attempt) (url : String)
    (attempt : Nat), 1 ≤ rem → (∀ i, i < rem → oracle (attempt + i) = Attempt.clientError) →
    check_url_go oracle url attempt rem =
      ⟨.networkError, rem, (List.range' attempt (rem - 1)).map (fun i => 2 ^ i)⟩
  | 0, _, _, _, h, _ => absurd h (by omega)
  | 1, oracle, url, attempt, _, hall => by
    have h0 : oracle attempt = Attempt.clientError := by simpa using hall 0 (by omega)
    simp [check_url_go, h0]
  | n + 2, oracle, url, attempt, _, hall => by
    have h0 : oracle attempt = Attempt.clientError := by simpa using hall 0 (by omega)
    have ih := check_url_go_clientError (n + 1) oracle url (attempt + 1) (by omega)
      (fun i hi => by
        have he : attempt + 1 + i = attempt + (i + 1) := by omega
        rw [he]; exact hall (i + 1) (by omega))
    simp [check_url_go, h0, ih, List.range']

theorem check_url_go_response (rem : Nat) (oracle : Nat → Attempt) (url : String)
    (attempt : Nat) (st : Nat) (loc : Option String) (h : 1 ≤ rem)
    (h0 : oracle attempt = Attempt.response st loc) :
    check_url_go oracle url attempt rem = ⟨.ok (classify url st loc), 1, []⟩ := by
  match rem with
  | 0 => omega
  | 1 => simp [check_url_go, h0]
  | n + 2 => simp [check_url_go, h0]

theorem check_url_go_reaches_response : ∀ (j : Nat) (oracle : Nat → Attempt)
    (url : String) (attempt rem st : Nat) (loc : Option String), j < rem →
    (∀ i, i < j → oracle (attempt + i) = Attempt.timeout ∨
      oracle (attempt + i) = Attempt.clientError) →
    oracle (attempt + j) = Attempt.response st loc →
    check_url_go oracle url attempt rem =
      ⟨.ok (classify url st loc), j + 1, (List.range' attempt j).map (fun i => 2 ^ i)⟩
  | 0, oracle, url, attempt, rem, st, loc, hj, _, hr => by
    have h0 : oracle attempt = Attempt.response st loc := by simpa using hr
    simpa using check_url_go_response rem oracle url attempt st loc (by omega) h0
  | j + 1, oracle, url, attempt, rem, st, loc, hj, hpre, hr => by
    obtain ⟨r, rfl⟩ : ∃ r, rem = r + 2 := ⟨rem - 2, by omega⟩
    have h0 : oracle attempt = Attempt.timeout ∨ oracle attempt = Attempt.clientError := by
      simpa using hpre 0 (by omega)
    have ih := check_url_go_reaches_response j oracle url (attempt + 1) (r + 1) st loc
      (by omega)
      (fun i hi => by
        have he : attempt + 1 + i = attempt + (i + 1) := by omega
        rw [he]; exact hpre (i + 1) (by omega))
      (by
        have he : attempt + 1 + j = attempt + (j + 1) := by omega
        rw [he]; exact hr)
    rcases h0 with h0 | h0 <;> simp [check_url_go, h0, ih, List.range']

/-- C2: for a URL all of whose attempts time out, check_url performs
exactly retries attempts, sleeps 2 ^ attempt seconds between consecutive
attempts, and returns the outcome with timed_out true and valid false. -/
theorem claim_C2_timeout_retry_backoff (oracle : Nat → Attempt) (url : String)
    (retries : Nat) (h : 1 ≤ retries)
    (hall : ∀ i, i < retries → oracle i = Attempt.timeout) :
    check_url oracle url retries =
      ⟨.ok ⟨false, none, true, none⟩, retries,
        (List.range (retries - 1)).map (fun i => 2 ^ i)⟩ := by
  have hg := check_url_go_timeout retries oracle url 0 h
    (fun i hi => by simpa using hall i hi)
  simpa [check_url, List.range_eq_range'] using hg

/-- Witness for C2 at retries 3: three attempts, sleeps of one and two
seconds, timed-out invalid outcome. -/
theorem claim_C2_witness :
    check_url (fun _ => Attempt.timeout) "http://slow.example/" 3 =
      ⟨.ok ⟨false, none, true, none⟩, 3, [1, 2]⟩ :=
  (claim_C2_timeout_retry_backoff (fun _ => Attempt.timeout) "http://slow.example/" 3
    (by omega) (fun _ _ => rfl)).trans (by decide)

/-- C4 counterexample: the legacy linkcheck.py check_url meets a transport
error and returns the ordinary invalid tuple false, none, false, none:
no retry, no NetworkError, nothing propagates, and the result is the same
tuple the broad except handler returns for any other exception. -/
theorem claim_C4_counterexample :
    linkcheck_check_url Attempt.clientError "http://down.example/" =
      ⟨false, none, false, none⟩ ∧
    linkcheck_check_url Attempt.otherError "http://down.example/" =
      ⟨false, none, false, none⟩ :=
  ⟨rfl, rfl⟩

/-- C4 amended: in the packaged implementation (main.py), a URL all of
whose attempts raise transport errors is retried exactly like timeouts,
with 2 ^ attempt backoff, and after exhausting retries check_url raises
NetworkError, a result distinct from the timed-out outcome tuple. -/
theorem claim_C4_network_error_raised (oracle : Nat → Attempt) (url : String)
    (retries : Nat) (h : 1 ≤ retries)
    (hall : ∀ i, i < retries → oracle i = Attempt.clientError) :
    check_url oracle url retries =
      ⟨.networkError, retries, (List.range (retries - 1)).map (fun i => 2 ^ i)⟩ ∧
    (check_url oracle url retries).result ≠ .ok ⟨false, none, true, none⟩ := by
  have hg := check_url_go_clientError retries oracle url 0 h
    (fun i hi => by simpa using hall i hi)
  have h1 : check_url oracle url retries =
      ⟨.networkError, retries, (List.range (retries - 1)).map (fun i => 2 ^ i)⟩ := by
    simpa [check_url, List.range_eq_range'] using hg
  exact ⟨h1, by rw [h1]; simp⟩

/-- Witness for C4 at retries 3: three attempts, sleeps of one and two
seconds, NetworkError raised. -/
theorem claim_C4_witness :
    check_url (fun _ => Attempt.clientError) "http://down.example/" 3 =
      ⟨.networkError, 3, [1, 2]⟩ :=
  ((claim_C4_network_error_raised (fun _ => Attempt.clientError) "http://down.example/" 3
    (by omega) (fun _ _ => rfl)).1).trans (by decide)

/-- C1 counterexample: a 301 response whose Location header is present but
empty. The claim says the location is taken verbatim as resolved_url, but
the code tests the header value for truthiness, so the empty location is
treated like a missing header and resolved_url is the original url. -/
theorem claim_C1_counterexample :
    (check_url (fun _ => Attempt.response 301 (some "")) "http://old.example/" 3).result =
      .ok ⟨true, some "http://old.example/", false, some 301⟩ ∧
    ("http://old.example/" : String) ≠ "" :=
  ⟨rfl, by decide⟩

/-- C1 amended: every check_url call that receives an HTTP response — on
whatever attempt j, the attempts before it having timed out or failed at
transport level, which is exactly when the retry loop continues —
classifies it as: 200 valid with resolved_url the original url; 301 or
302 with a nonempty Location valid with resolved_url that location
verbatim; 301 or 302 with a missing or empty Location valid with
resolved_url the original url; every other status, 404 included, invalid
with the status recorded. The call ends at that response after j + 1
attempts. -/
theorem claim_C1_response_classification (oracle : Nat → Attempt) (url : String)
    (retries st j : Nat) (loc : Option String) (hj : j < retries)
    (hpre : ∀ i, i < j → oracle i = Attempt.timeout ∨ oracle i = Attempt.clientError)
    (hr : oracle j = Attempt.response st loc) :
    check_url oracle url retries =
      ⟨.ok (classify url st loc), j + 1, (List.range j).map (fun i => 2 ^ i)⟩ ∧
    (st = 200 → classify url st loc = ⟨true, some url, false, some 200⟩) ∧
    ((st = 301 ∨ st = 302) → ∀ l, loc = some l → l ≠ "" →
      classify url st loc = ⟨true, some l, false, some st⟩) ∧
    ((st = 301 ∨ st = 302) → (loc = none ∨ loc = some "") →
      classify url st loc = ⟨true, some url, false, some st⟩) ∧
    (st ≠ 200 → ¬(st = 301 ∨ st = 302) →
      classify url st loc = ⟨false, none, false, some st⟩) := by
  refine ⟨?_, ?_, ?_, ?_, ?_⟩
  · have hg := check_url_go_reaches_response j oracle url 0 retries st loc hj
      (fun i hi => by simpa using hpre i hi) (by simpa using hr)
    simpa [check_url, List.range_eq_range'] using hg
  · intro h200; simp [classify, h200]
  · intro hre l hl hne
    have h200 : ¬ st = 200 := by rcases hre with h1 | h1 <;> omega
    have hemp : l.isEmpty = false := by
      rcases hl2 : l.isEmpty with _ | _
      · rfl
      · exact absurd ((String.isEmpty_iff l).mp hl2) hne
    subst hl
    simp [classify, h200, hre, hemp]
  · intro hre hcase
    have h200 : ¬ st = 200 := by rcases hre with h1 | h1 <;> omega
    have hemp : ("" : String).isEmpty = true := rfl
    rcases hcase with hc | hc <;> subst hc <;> simp [classify, h200, hre, hemp]
  · intro h200 hre
    by_cases h404 : st = 404
    · subst h404; simp [classify]
    · simp [classify, h200, hre, h404]

/-- Witness for C1 at a 301 with a nonempty Location received on the
second attempt, the first attempt having timed out: two attempts, one
backoff sleep, resolved_url is the location verbatim. -/
theorem claim_C1_witness :
    check_url (fun i => if i = 0 then Attempt.timeout
        else Attempt.response 301 (some "http://new.example/"))
      "http://old.example/" 3 =
      ⟨.ok ⟨true, some "http://new.example/", false, some 301⟩, 2, [1]⟩ := by
  have h := claim_C1_response_classification
    (fun i => if i = 0 then Attempt.timeout
      else Attempt.response 301 (some "http://new.example/"))
    "http://old.example/" 3 301 1 (some "http://new.example/") (by omega)
    (fun i hi => by
      have hi0 : i = 0 := by omega
      subst hi0; exact Or.inl rfl)
    rfl
  have h2 := h.2.2.1 (Or.inl rfl) "http://new.example/" rfl (by decide)
  rw [h.1, h2]
  exact rfl

/-! Frame lemmas for the record field processor. -/

theorem lookupField_processField_ne (env : String → CheckOutcome) (cfg : Config)
    (f : String) (item : Record) (g : String) (h : g ≠ f) :
    lookupField (processField env cfg f item).1 g = lookupField item g := by
  have hd := lookupField_delField_ne item f g h
  have hs := fun v => lookupField_setField_ne item f g v h
  unfold processField
  cases hcase : lookupField item f with
  | none => rfl
  | some v =>
    cases v with
    | arr elems => dsimp only; split <;> simp [hd, hs]
    | str s => dsimp only; split_ifs <;> simp [hd, hs]
    | num n => exact hd
    | bool b => exact hd
    | null => exact hd

theorem processField_absent (env : String → CheckOutcome) (cfg : Config)
    (f : String) (item : Record) (h : lookupField item f = none) :
    processField env cfg f item = (item, []) := by
  unfold processField; rw [h]

theorem lookupField_processFields_ne (env : String → CheckOutcome) (cfg : Config)
    (g : String) : ∀ (fs : List String) (item : Record), g ∉ fs →
    lookupField (processFields env cfg fs item).1 g = lookupField item g := by
  intro fs
  induction fs with
  | nil => intro item _; rfl
  | cons f fs ih =>
    intro item hg
    have hgf : g ≠ f := fun hh => hg (hh ▸ List.mem_cons_self f fs)
    have hgs : g ∉ fs := fun hh => hg (List.mem_cons_of_mem f hh)
    show lookupField (processFields env cfg fs (processField env cfg f item).1).1 g =
      lookupField item g
    rw [ih _ hgs, lookupField_processField_ne env cfg f item g hgf]

theorem processFields_all_absent (env : String → CheckOutcome) (cfg : Config) :
    ∀ (fs : List String) (item : Record), (∀ f ∈ fs, lookupField item f = none) →
    processFields env cfg fs item = (item, []) := by
  intro fs
  induction fs with
  | nil => intro item _; rfl
  | cons f fs ih =>
    intro item hall
    have h1 : processField env cfg f item = (item, []) :=
      processField_absent env cfg f item (hall f (List.mem_cons_self f fs))
    have h2 : processFields env cfg fs item = (item, []) :=
      ih item (fun g hg => hall g (List.mem_cons_of_mem f hg))
    show (let step := processField env cfg f item
          let rest := processFields env cfg fs step.1
          ((rest.1, step.2 ++ rest.2) : Record × List Event)) = (item, [])
    rw [h1]
    simpa using h2

theorem lookupField_processField_absent (env : String → CheckOutcome) (cfg : Config)
    (f g : String) (it : Record) (h : lookupField it f = none) :
    lookupField (processField env cfg g it).1 f = none := by
  by_cases hfg : f = g
  · subst hfg
    rw [processField_absent env cfg f it h]
    exact h
  · rw [lookupField_processField_ne env cfg g it f hfg]
    exact h

theorem processFields_skip_absent (env : String → CheckOutcome) (cfg : Config)
    (f : String) : ∀ (fs : List String) (it : Record), lookupField it f = none →
    processFields env cfg fs it =
      processFields env cfg (fs.filter (fun g => g ≠ f)) it := by
  intro fs
  induction fs with
  | nil => intro it _; rfl
  | cons g gs ih =>
    intro it h
    by_cases hgf : g = f
    · subst hgf
      have hfil : (g :: gs).filter (fun x => x ≠ g) = gs.filter (fun x => x ≠ g) := by
        simp [List.filter_cons]
      rw [hfil]
      show (let step := processField env cfg g it
            let rest := processFields env cfg gs step.1
            ((rest.1, step.2 ++ rest.2) : Record × List Event)) = _
      rw [processField_absent env cfg g it h]
      simpa using ih it h
    · have hfil : (g :: gs).filter (fun x => x ≠ f) =
          g :: gs.filter (fun x => x ≠ f) := by
        simp [List.filter_cons, hgf]
      rw [hfil]
      show (((processFields env cfg gs (processField env cfg g it).1).1,
          (processField env cfg g it).2 ++
            (processFields env cfg gs (processField env cfg g it).1).2) :
          Record × List Event) =
        (((processFields env cfg (gs.filter (fun x => x ≠ f))
            (processField env cfg g it).1).1,
          (processField env cfg g it).2 ++
            (processFields env cfg (gs.filter (fun x => x ≠ f))
              (processField env cfg g it).1).2) : Record × List Event)
      rw [ih (processField env cfg g it).1
        (lookupField_processField_absent env cfg f g it h)]

/-- C8: fields outside the configured list come through with their stored
values untouched; the processing step of any configured field absent from
the record at hand is the identity, with no check performed, no deletion
and no event reported — for any record, also one in which other
configured fields are present, so a whole run behaves as if the absent
field were not configured at all; and a record in which every configured
field is absent is passed through unmodified with no event. -/
theorem claim_C8_unconfigured_fields_untouched (env : String → CheckOutcome)
    (cfg : Config) (item : Record) :
    (∀ g, g ∉ cfg.fields →
      lookupField (processItem env cfg item).1 g = lookupField item g) ∧
    (∀ f (it : Record), lookupField it f = none →
      processField env cfg f it = (it, [])) ∧
    (∀ f, f ∈ cfg.fields → lookupField item f = none →
      processItem env cfg item =
        processFields env cfg (cfg.fields.filter (fun g => g ≠ f)) item) ∧
    ((∀ f ∈ cfg.fields, lookupField item f = none) →
      processItem env cfg item = (item, [])) :=
  ⟨fun g hg => lookupField_processFields_ne env cfg g cfg.fields item hg,
   fun f it h => processField_absent env cfg f it h,
   fun f _ h => processFields_skip_absent env cfg f cfg.fields item h,
   fun hall => processFields_all_absent env cfg cfg.fields item hall⟩

/-- Witness for C8 on a record where the configured field url is present
and the configured field extra is absent: the unconfigured field keeps
its value, the processing step for extra is the identity with no event,
the whole record processes as if only url were configured, and a record
with every configured field absent passes through unchanged. -/
theorem claim_C8_witness :
    lookupField (processItem (fun u => ⟨true, some u, false, some 200⟩)
      ⟨["url", "extra"], false, false, false, false⟩
      [("url", Json.str "http://a.example/"), ("other", Json.str "keep")]).1
      "other" = some (Json.str "keep") ∧
    processField (fun u => ⟨true, some u, false, some 200⟩)
      ⟨["url", "extra"], false, false, false, false⟩ "extra"
      [("url", Json.str "http://a.example/"), ("other", Json.str "keep")] =
      ([("url", Json.str "http://a.example/"), ("other", Json.str "keep")], []) ∧
    processItem (fun u => ⟨true, some u, false, some 200⟩)
      ⟨["url", "extra"], false, false, false, false⟩
      [("url", Json.str "http://a.example/"), ("other", Json.str "keep")] =
      processFields (fun u => ⟨true, some u, false, some 200⟩)
        ⟨["url", "extra"], false, false, false, false⟩ ["url"]
        [("url", Json.str "http://a.example/"), ("other", Json.str "keep")] ∧
    processItem (fun u => ⟨true, some u, false, some 200⟩)
      ⟨["url"], false, false, false, false⟩ [("other", Json.str "keep")] =
      ([("other", Json.str "keep")], []) := by
  refine ⟨?_, ?_, ?_, ?_⟩
  · rw [(claim_C8_unconfigured_fields_untouched _ _ _).1 "other" (by decide)]; rfl
  · exact (claim_C8_unconfigured_fields_untouched
      (fun u => ⟨true, some u, false, some 200⟩)
      ⟨["url", "extra"], false, false, false, false⟩
      [("url", Json.str "http://a.example/"), ("other", Json.str "keep")]).2.1
      "extra" _ rfl
  · exact (claim_C8_unconfigured_fields_untouched
      (fun u => ⟨true, some u, false, some 200⟩)
      ⟨["url", "extra"], false, false, false, false⟩
      [("url", Json.str "http://a.example/"), ("other", Json.str "keep")]).2.2.1
      "extra" (by decide) rfl
  · exact (claim_C8_unconfigured_fields_untouched
      (fun u => ⟨true, some u, false, some 200⟩)
      ⟨["url"], false, false, false, false⟩ [("other", Json.str "keep")]).2.2.2
      (by intro f hf; simp at hf; subst hf; rfl)

/-- C5: is_valid_url holds exactly when the parsed URL has both a nonempty
scheme and a nonempty netloc (a pure function, no network access), and a
configured field whose string value fails this check is deleted with no
event emitted, so add_url_check is never called for it and the statistics
are unchanged by it. -/
theorem claim_C5_syntactic_prefilter :
    (∀ s, is_valid_url s = true ↔ ¬(urlparse s).1 = "" ∧ ¬(urlparse s).2 = "") ∧
    (∀ (env : String → CheckOutcome) (cfg : Config) (f : String) (item : Record)
      (s : String), lookupField item f = some (Json.str s) → is_valid_url s = false →
      processField env cfg f item = (delField item f, [])) := by
  constructor
  · intro s
    simp [is_valid_url, Bool.and_eq_true, Bool.not_eq_true', Bool.eq_false_iff,
      ne_eq, String.isEmpty_iff]
  · intro env cfg f item s h hv
    unfold processField; rw [h]; simp [hv]

/-- Witness for C5: a string that is not an absolute URL is rejected
without network access and its field is deleted with no event. -/
theorem claim_C5_witness :
    is_valid_url "not a url" = false ∧
    processField (fun _ => ⟨true, none, false, some 200⟩)
      ⟨["url"], false, false, false, false⟩ "url"
      [("url", Json.str "not a url")] = ([], []) :=
  ⟨rfl, (claim_C5_syntactic_prefilter.2 (fun _ => ⟨true, none, false, some 200⟩)
    ⟨["url"], false, false, false, false⟩ "url" [("url", Json.str "not a url")]
    "not a url" rfl rfl).trans rfl⟩

/-- C3: evaluation of the code at the failing input. A configured list
field with one syntactically valid URL whose check times out, with
delete_timeouts off: under the default non-verbose run the element is
dropped and the now-empty field deleted, while the same input with
verbose on keeps the element — the keep decision sits inside the
verbose-only logging block (main.py lines 400 to 412), so it does depend
on the verbosity setting, contradicting the claim. -/
theorem claim_C3_list_timeout_dropped :
    (processItem (fun _ => ⟨false, none, true, none⟩)
      ⟨["urls"], false, false, false, false⟩
      [("urls", Json.arr [Json.str "http://t.example/a"])]).1 = [] ∧
    (processItem (fun _ => ⟨false, none, true, none⟩)
      ⟨["urls"], false, false, true, false⟩
      [("urls", Json.arr [Json.str "http://t.example/a"])]).1 =
      [("urls", Json.arr [Json.str "http://t.example/a"])] :=
  ⟨rfl, rfl⟩

/-! Lemmas about the statistics aggregator. -/

theorem statLookup_updFirst_self (l : List (String × FieldStats)) (f : String)
    (fs : FieldStats) : statLookup (updFirst l f fs) f = some fs := by
  induction l with
  | nil => simp [updFirst, statLookup]
  | cons p rest ih =>
    obtain ⟨k, v⟩ := p
    by_cases hk : k = f
    · simp [updFirst, statLookup, hk]
    · simp [updFirst, statLookup, hk, ih]

theorem statLookup_updFirst_ne (l : List (String × FieldStats)) (f g : String)
    (fs : FieldStats) (h : g ≠ f) :
    statLookup (updFirst l f fs) g = statLookup l g := by
  have hfg : ¬ f = g := fun hh => h hh.symm
  induction l with
  | nil => simp [updFirst, statLookup, hfg]
  | cons p rest ih =>
    obtain ⟨k, v⟩ := p
    by_cases hk : k = f
    · simp [updFirst, statLookup, hk, hfg]
    · by_cases hg : k = g
      · simp [updFirst, statLookup, hk, hg, h]
      · simp [updFirst, statLookup, hk, hg, ih]

theorem getFS_setFS_self (st : Statistics) (f : String) (fs : FieldStats) :
    getFS (setFS st f fs) f = fs := by
  simp [getFS, setFS, statLookup_updFirst_self]

theorem getFS_setFS_ne (st : Statistics) (f g : String) (fs : FieldStats)
    (h : g ≠ f) : getFS (setFS st f fs) g = getFS st g := by
  simp [getFS, setFS, statLookup_updFirst_ne _ _ _ _ h]

/-- The per-field balance the claims talk about: the outcome counters sum
to the total. -/
def sumOk (fs : FieldStats) : Prop :=
  fs.valid_urls + fs.invalid_urls + fs.not_found + fs.timeouts + fs.errors =
    fs.total_urls

theorem sumOk_add_url_check (st : Statistics) (c : UrlCheckCall)
    (h : ∀ g, sumOk (getFS st g)) : ∀ g, sumOk (getFS (add_url_check st c) g) := by
  intro g
  by_cases hg : g = c.field
  · subst hg
    have h0 := h c.field
    simp only [add_url_check, getFS_setFS_self]
    simp only [sumOk] at h0 ⊢
    split_ifs <;> simp <;> omega
  · simpa [add_url_check, getFS_setFS_ne _ _ _ _ hg] using h g

theorem sumOk_applyEvent (st : Statistics) (e : Event)
    (h : ∀ g, sumOk (getFS st g)) : ∀ g, sumOk (getFS (applyEvent st e) g) := by
  cases e with
  | urlCheck c => exact sumOk_add_url_check st c h
  | timeoutUrl u => exact h
  | redirectPair f src tgt =>
    intro g
    by_cases hg : g = f
    · subst hg
      have h0 := h g
      simp only [applyEvent, getFS_setFS_self]
      simpa [sumOk] using h0
    · simpa [applyEvent, getFS_setFS_ne _ _ _ _ hg] using h g

theorem sumOk_foldl (evs : List Event) : ∀ (st : Statistics),
    (∀ g, sumOk (getFS st g)) → ∀ g, sumOk (getFS (evs.foldl applyEvent st) g) := by
  induction evs with
  | nil => intro st h; exact h
  | cons e evs ih => intro st h; exact ih (applyEvent st e) (sumOk_applyEvent st e h)

theorem totalSum_setFS (st : Statistics) (f : String) (fs : FieldStats) :
    totalSum (setFS st f fs) + (getFS st f).total_urls =
      totalSum st + fs.total_urls := by
  obtain ⟨l⟩ := st
  simp only [totalSum, setFS, getFS]
  induction l with
  | nil => simp [updFirst, statLookup, FieldStats.init]
  | cons p rest ih =>
    obtain ⟨k, v⟩ := p
    by_cases hk : k = f
    · simp [updFirst, statLookup, hk]; omega
    · simp only [updFirst, statLookup, hk, if_false, List.map_cons, List.sum_cons]
      omega

theorem totalSum_add_url_check (st : Statistics) (c : UrlCheckCall) :
    totalSum (add_url_check st c) = totalSum st + 1 := by
  simp only [add_url_check]
  have hkey : ∀ fs2 : FieldStats,
      fs2.total_urls = (getFS st c.field).total_urls + 1 →
      totalSum (setFS st c.field fs2) = totalSum st + 1 := by
    intro fs2 h2
    have := totalSum_setFS st c.field fs2
    omega
  split_ifs <;> exact hkey _ rfl

theorem totalSum_applyEvent (st : Statistics) (e : Event) :
    totalSum (applyEvent st e) = totalSum st + countCalls [e] := by
  cases e with
  | urlCheck c => simpa [countCalls] using totalSum_add_url_check st c
  | timeoutUrl u => simp [applyEvent, countCalls]
  | redirectPair f src tgt =>
    have h2 := totalSum_setFS st f
      { getFS st f with redirects_map := (getFS st f).redirects_map ++ [(src, tgt)] }
    have h3 : totalSum (applyEvent st (Event.redirectPair f src tgt)) = totalSum st :=
      Nat.add_right_cancel h2
    simpa [countCalls] using h3

theorem totalSum_foldl (evs : List Event) : ∀ (st : Statistics),
    totalSum (evs.foldl applyEvent st) = totalSum st + countCalls evs := by
  induction evs with
  | nil => intro st; simp [countCalls]
  | cons e evs ih =>
    intro st
    have h1 := totalSum_applyEvent st e
    have h2 := ih (applyEvent st e)
    cases e <;> simp [countCalls] at h1 ⊢ <;> omega

theorem errors_applyEvent (st : Statistics) (e : Event) (g : String) :
    (getFS (applyEvent st e) g).errors = (getFS st g).errors := by
  cases e with
  | urlCheck c =>
    by_cases hg : g = c.field
    · subst hg
      simp only [applyEvent, add_url_check, getFS_setFS_self]
      split_ifs <;> rfl
    · simp [applyEvent, add_url_check, getFS_setFS_ne _ _ _ _ hg]
  | timeoutUrl u => rfl
  | redirectPair f src tgt =>
    by_cases hg : g = f
    · subst hg; simp [applyEvent, getFS_setFS_self]
    · simp [applyEvent, getFS_setFS_ne _ _ _ _ hg]

theorem errors_foldl (evs : List Event) : ∀ (st : Statistics) (g : String),
    (getFS (evs.foldl applyEvent st) g).errors = (getFS st g).errors := by
  induction evs with
  | nil => intro st g; rfl
  | cons e evs ih =>
    intro st g
    rw [List.foldl_cons, ih (applyEvent st e) g, errors_applyEvent st e g]

/-! Counting the add_url_check calls the processor emits. -/

theorem countCalls_append (a b : List Event) :
    countCalls (a ++ b) = countCalls a + countCalls b := by
  induction a with
  | nil => simp [countCalls]
  | cons e rest ih => cases e <;> simp [countCalls, ih, Nat.add_assoc]

theorem countCalls_processElems (env : String → CheckOutcome) (cfg : Config)
    (f : String) (es : List Json) :
    countCalls (processElems env cfg f es).2 = examinedOfElems es := by
  induction es with
  | nil => rfl
  | cons e rest ih =>
    cases e with
    | str url =>
      by_cases hv : is_valid_url url
      · simp only [processElems, hv, if_true, examinedOfElems]
        split_ifs <;> simp [countCalls, ih, Nat.add_comm]
      · simp [processElems, examinedOfElems, hv, ih]
    | arr es2 => simpa [processElems, examinedOfElems] using ih
    | num n => simpa [processElems, examinedOfElems] using ih
    | bool b => simpa [processElems, examinedOfElems] using ih
    | null => simpa [processElems, examinedOfElems] using ih

theorem countCalls_processField (env : String → CheckOutcome) (cfg : Config)
    (f : String) (item : Record) :
    countCalls (processField env cfg f item).2 = examinedOfField item f := by
  unfold processField examinedOfField
  cases hcase : lookupField item f with
  | none => rfl
  | some v =>
    cases v with
    | arr elems =>
      dsimp only
      split <;> simpa using countCalls_processElems env cfg f elems
    | str s =>
      dsimp only
      split_ifs <;> simp [countCalls]
    | num n => rfl
    | bool b => rfl
    | null => rfl

theorem examinedOfField_congr (a b : Record) (f : String)
    (h : lookupField a f = lookupField b f) :
    examinedOfField a f = examinedOfField b f := by
  unfold examinedOfField; rw [h]

theorem examinedOfFields_congr (fs : List String) : ∀ (a b : Record),
    (∀ g ∈ fs, lookupField a g = lookupField b g) →
    examinedOfFields a fs = examinedOfFields b fs := by
  induction fs with
  | nil => intro a b _; rfl
  | cons f fs ih =>
    intro a b h
    show examinedOfField a f + examinedOfFields a fs =
      examinedOfField b f + examinedOfFields b fs
    rw [examinedOfField_congr a b f (h f (List.mem_cons_self f fs)),
      ih a b (fun g hg => h g (List.mem_cons_of_mem f hg))]

theorem countCalls_processFields (env : String → CheckOutcome) (cfg : Config) :
    ∀ (fs : List String) (item : Record), fs.Nodup →
    countCalls (processFields env cfg fs item).2 = examinedOfFields item fs := by
  intro fs
  induction fs with
  | nil => intro item _; rfl
  | cons f fs ih =>
    intro item hnd
    have hf : f ∉ fs := (List.nodup_cons.mp hnd).1
    have hfs : fs.Nodup := (List.nodup_cons.mp hnd).2
    show countCalls ((processField env cfg f item).2 ++
      (processFields env cfg fs (processField env cfg f item).1).2) =
      examinedOfField item f + examinedOfFields item fs
    rw [countCalls_append, countCalls_processField,
      ih (processField env cfg f item).1 hfs,
      examinedOfFields_congr fs (processField env cfg f item).1 item
        (fun g hg => lookupField_processField_ne env cfg f item g
          (fun hh => hf (hh ▸ hg)))]

theorem countCalls_process_chunk (env : String → CheckOutcome) (cfg : Config)
    (hnd : cfg.fields.Nodup) : ∀ (chunk : List Record),
    countCalls (process_chunk env cfg chunk).2 = examinedOfChunk cfg chunk := by
  intro chunk
  induction chunk with
  | nil => rfl
  | cons item rest ih =>
    show countCalls ((processItem env cfg item).2 ++ (process_chunk env cfg rest).2) =
      examinedOfChunk cfg (item :: rest)
    rw [countCalls_append, ih]
    show countCalls (processFields env cfg cfg.fields item).2 +
      examinedOfChunk cfg rest = examinedOfChunk cfg (item :: rest)
    rw [countCalls_processFields env cfg cfg.fields item hnd]
    simp [examinedOfChunk]

/-- C9: after any sequence of events starting from the fresh Statistics,
every field's outcome counters, errors included, sum to its total_urls
(each add_url_check call increments total_urls once and exactly one
outcome counter); the grand total over all fields equals the number of
add_url_check calls; and for a processed chunk, with distinct configured
fields, that grand total equals the number of URL occurrences examined
across scalar and list fields combined. -/
theorem claim_C9_statistics_invariant (evs : List Event)
    (env : String → CheckOutcome) (cfg : Config) (chunk : List Record)
    (hnd : cfg.fields.Nodup) :
    (∀ g, sumOk (getFS (runStats evs) g)) ∧
    totalSum (runStats evs) = countCalls evs ∧
    totalSum (runStats (process_chunk env cfg chunk).2) =
      examinedOfChunk cfg chunk := by
  refine ⟨?_, ?_, ?_⟩
  · exact sumOk_foldl evs Statistics.init (fun g => by simp [getFS, Statistics.init,
      statLookup, FieldStats.init, sumOk])
  · simpa [runStats, totalSum, Statistics.init] using
      totalSum_foldl evs Statistics.init
  · rw [show totalSum (runStats (process_chunk env cfg chunk).2) =
      countCalls (process_chunk env cfg chunk).2 by
        simpa [runStats, totalSum, Statistics.init] using
          totalSum_foldl (process_chunk env cfg chunk).2 Statistics.init]
    exact countCalls_process_chunk env cfg hnd chunk

/-- Witness for C9: one record with a scalar URL field and a list field
holding one URL and one number; two URL occurrences are examined and the
grand total of checked URLs is two. -/
theorem claim_C9_witness :
    totalSum (runStats (process_chunk (fun u => ⟨true, some u, false, some 200⟩)
      ⟨["url", "urls"], false, false, false, false⟩
      [[("url", Json.str "http://a.example/b"),
        ("urls", Json.arr [Json.str "http://c.example/", Json.num 3])]]).2) = 2 :=
  ((claim_C9_statistics_invariant [] (fun u => ⟨true, some u, false, some 200⟩)
    ⟨["url", "urls"], false, false, false, false⟩
    [[("url", Json.str "http://a.example/b"),
      ("urls", Json.arr [Json.str "http://c.example/", Json.num 3])]]
    (by decide)).2.2).trans rfl

/-- C10: the errors counter of every field is zero after any sequence of
events starting from the fresh Statistics — no operation of the program
ever increments it — and consequently the conditional errors line of the
per-field summary is never printed, even though print_summary would
report a nonzero count. -/
theorem claim_C10_errors_always_zero (evs : List Event) (f : String) :
    (getFS (runStats evs) f).errors = 0 ∧
    errorsLines (getFS (runStats evs) f) = [] := by
  have h : (getFS (runStats evs) f).errors = 0 := by
    rw [runStats, errors_foldl evs Statistics.init f]
    rfl
  exact ⟨h, by simp [errorsLines, h]⟩

/-! Lemmas about the chunk pipeline and the ordered merge. -/

theorem process_chunk_fst (env : String → CheckOutcome) (cfg : Config) :
    ∀ (c : List Record),
    (process_chunk env cfg c).1 = c.map (fun r => (processItem env cfg r).1) := by
  intro c
  induction c with
  | nil => rfl
  | cons item rest ih =>
    show (processItem env cfg item).1 :: (process_chunk env cfg rest).1 = _
    rw [ih]; rfl

theorem read_chunks_flatten (cs : Nat) : ∀ (lines : List (Option Record))
    (acc : List Record),
    (read_chunks cs acc lines).flatten = acc ++ lines.filterMap id := by
  intro lines
  induction lines with
  | nil =>
    intro acc
    by_cases h : acc.isEmpty
    · have : acc = [] := by simpa using h
      simp [read_chunks, h, this]
    · simp [read_chunks, h]
  | cons l rest ih =>
    intro acc
    cases l with
    | none => simp [read_chunks, ih]
    | some obj =>
      simp only [read_chunks]
      by_cases h : cs ≤ acc.length + 1
      · simp [h, ih]
      · simp [h, ih]

theorem storeLookup_withIndex : ∀ (l : List (List Record)) (k i : Nat),
    storeLookup (withIndex k l) (k + i) = l[i]? := by
  intro l
  induction l with
  | nil => intro k i; rfl
  | cons c rest ih =>
    intro k i
    cases i with
    | zero => simp [withIndex, storeLookup]
    | succ j =>
      have hne : ¬ k = k + (j + 1) := by omega
      have hsh : k + (j + 1) = (k + 1) + j := by omega
      simp only [withIndex, storeLookup, hne, if_false]
      rw [hsh, ih (k + 1) j]
      simp

theorem withIndex_keys : ∀ (l : List (List Record)) (k : Nat),
    (withIndex k l).map Prod.fst = List.range' k l.length := by
  intro l
  induction l with
  | nil => intro k; rfl
  | cons c rest ih => intro k; simp [withIndex, List.range', ih]

theorem mergeUpTo_congr (s1 s2 : List (Nat × List Record))
    (h : ∀ k, storeLookup s1 k = storeLookup s2 k) :
    ∀ n, mergeUpTo s1 n = mergeUpTo s2 n := by
  intro n
  induction n with
  | zero => rfl
  | succ m ih => show mergeUpTo s1 m ++ _ = mergeUpTo s2 m ++ _; rw [ih, h m]

theorem mergeUpTo_flatten (store : List (Nat × List Record)) :
    ∀ (l : List (List Record)),
    (∀ i, i < l.length → storeLookup store i = l[i]?) →
    mergeUpTo store l.length = l.flatten := by
  intro l
  induction l using List.reverseRecOn with
  | nil => intro _; rfl
  | append_singleton l c ih =>
    intro h
    have hlen : (l ++ [c]).length = l.length + 1 := by simp
    rw [hlen]
    show mergeUpTo store l.length ++ (storeLookup store l.length).getD [] = _
    have hc : storeLookup store l.length = some c := by
      rw [h l.length (by simp)]
      exact List.getElem?_concat_length l c
    have hrest : ∀ i, i < l.length → storeLookup store i = l[i]? := by
      intro i hi
      rw [h i (by simp; omega)]
      exact List.getElem?_append_left hi
    rw [ih hrest, hc]
    simp

theorem storeLookup_perm {l1 l2 : List (Nat × List Record)} (p : l1.Perm l2)
    (nd : (l2.map Prod.fst).Nodup) (k : Nat) :
    storeLookup l1 k = storeLookup l2 k := by
  induction p with
  | nil => rfl
  | cons a p ih =>
    obtain ⟨ka, va⟩ := a
    simp only [List.map_cons, List.nodup_cons] at nd
    by_cases hk : ka = k
    · simp [storeLookup, hk]
    · simp only [storeLookup, hk, if_false]
      exact ih nd.2
  | swap x y t =>
    obtain ⟨kx, vx⟩ := x
    obtain ⟨ky, vy⟩ := y
    simp only [List.map_cons, List.nodup_cons] at nd
    have hxy : kx ≠ ky := fun hh => nd.1 (hh ▸ List.mem_cons_self ky _)
    by_cases h1 : ky = k <;> by_cases h2 : kx = k
    · exact absurd (h2.trans h1.symm) hxy
    · simp [storeLookup, h1, h2]
    · simp [storeLookup, h1, h2]
    · simp [storeLookup, h1, h2]
  | trans p1 p2 ih1 ih2 =>
    have ndm := ((p2.map Prod.fst).nodup_iff).mpr nd
    exact (ih1 ndm).trans (ih2 nd)

theorem process_json_file_eq_map (env : String → CheckOutcome) (cfg : Config)
    (cs : Nat) (lines : List (Option Record)) :
    process_json_file env cfg cs lines =
      (lines.filterMap id).map (fun r => (processItem env cfg r).1) := by
  unfold process_json_file chunkArtifacts
  have hlen : (read_chunks cs [] lines).length =
      ((read_chunks cs [] lines).map (fun c => (process_chunk env cfg c).1)).length := by
    simp
  rw [hlen]
  rw [mergeUpTo_flatten _ _ (fun i _ => by
    simpa using storeLookup_withIndex
      ((read_chunks cs [] lines).map (fun c => (process_chunk env cfg c).1)) 0 i)]
  have hl : (read_chunks cs [] lines).map (fun c => (process_chunk env cfg c).1) =
      (read_chunks cs [] lines).map
        (fun c => c.map (fun r => (processItem env cfg r).1)) := by
    simp [process_chunk_fst]
  rw [hl, ← List.map_flatten, read_chunks_flatten cs lines []]
  simp

/-- C6: a run's output contains exactly one record per input line that
parsed, in input order: merging any completion-order permutation of the
per-chunk artifacts by ascending chunk index yields the per-record map
over the parsed input lines. -/
theorem claim_C6_ordered_merge_output (env : String → CheckOutcome) (cfg : Config)
    (cs : Nat) (lines : List (Option Record)) (store : List (Nat × List Record))
    (hperm : store.Perm (chunkArtifacts env cfg cs lines)) :
    mergeUpTo store (read_chunks cs [] lines).length =
      (lines.filterMap id).map (fun r => (processItem env cfg r).1) := by
  have hnod : ((chunkArtifacts env cfg cs lines).map Prod.fst).Nodup := by
    unfold chunkArtifacts
    rw [withIndex_keys]
    exact List.nodup_range' _ _
  have hme := mergeUpTo_congr store (chunkArtifacts env cfg cs lines)
    (storeLookup_perm hperm hnod) (read_chunks cs [] lines).length
  rw [hme]
  exact process_json_file_eq_map env cfg cs lines

/-- Witness for C6: two one-record chunks whose artifacts are stored in
reversed completion order still merge to the two cleaned records in input
order, the malformed middle line skipped. -/
theorem claim_C6_witness :
    mergeUpTo (chunkArtifacts (fun u => ⟨true, some u, false, some 200⟩)
        ⟨["url"], false, false, false, false⟩ 1
        [some [("url", Json.str "http://a.example/")], none,
          some [("x", Json.num 1)]]).reverse
      (read_chunks 1 []
        [some [("url", Json.str "http://a.example/")], none,
          some [("x", Json.num 1)]]).length =
      [[("url", Json.str "http://a.example/")], [("x", Json.num 1)]] :=
  (claim_C6_ordered_merge_output (fun u => ⟨true, some u, false, some 200⟩)
    ⟨["url"], false, false, false, false⟩ 1
    [some [("url", Json.str "http://a.example/")], none, some [("x", Json.num 1)]]
    _ (List.reverse_perm _)).trans rfl

/-- C7: for any chunk size of at least one, the run's output records are
those of the run with chunk size one — chunking does not change the
processing semantics (proved as list equality, which implies the claimed
equality of the output sets). -/
theorem claim_C7_chunking_invariant (env : String → CheckOutcome) (cfg : Config)
    (cs : Nat) (lines : List (Option Record)) (h : 1 ≤ cs) :
    process_json_file env cfg cs lines = process_json_file env cfg 1 lines :=
  (process_json_file_eq_map env cfg cs lines).trans
    (process_json_file_eq_map env cfg 1 lines).symm

/-- Witness for C7: the same three lines processed with chunk size three
and chunk size one give the same output records. -/
theorem claim_C7_witness :
    process_json_file (fun u => ⟨true, some u, false, some 200⟩)
      ⟨["url"], false, false, false, false⟩ 3
      [some [("url", Json.str "http://a.example/")], none,
        some [("x", Json.num 1)]] =
    process_json_file (fun u => ⟨true, some u, false, some 200⟩)
      ⟨["url"], false, false, false, false⟩ 1
      [some [("url", Json.str "http://a.example/")], none,
        some [("x", Json.num 1)]] :=
  claim_C7_chunking_invariant (fun u => ⟨true, some u, false, some 200⟩)
    ⟨["url"], false, false, false, false⟩ 3
    [some [("url", Json.str "http://a.example/")], none, some [("x", Json.num 1)]]
    (by omega)

end JsonLinkCheck
